import Mathlib

/-!
# Verification of the INCA project-monitoring dashboard metrics pipeline

Shallow embedding of the data-transformation and derived-metrics pipeline of
`DASHBOARD INCA - STREAMLIT/app.py`.  Dates are modelled at whole-day
granularity as integers (days since an arbitrary epoch); where sub-day
precision of `datetime.today()` matters (the late-task computation) timestamps
are rationals measured in days.  Pandas missing values (`NaT`/`NaN`) are
modelled with `Option`; machine floats are modelled as `ℚ`.
-/

namespace Inca

/-! ## Completion-percentage rescaling (load_data, `% COMPLETE` column)

`df['% COMPLETE'].apply(lambda x: x * 100 if x <= 1 else x)` -/

def rescaleComplete (x : ℚ) : ℚ :=
  if x ≤ 1 then x * 100 else x

/-! ## calculate_planned_progress

```
start = pd.to_datetime(row['START'], errors='coerce')
end = pd.to_datetime(row['PLAN END'], errors='coerce')
if pd.isna(start) or pd.isna(end): return 0
if today >= end: return 100
elif today <= start: return 0
else:
    total_days = (end - start).days
    if total_days <= 0: return 50
    days_in = (today - start).days
    return min(100, max(0, (days_in / total_days) * 100))
```
An unparseable date is `None`; dates are whole days. -/

def calculate_planned_progress (start planEnd : Option ℤ) (today : ℤ) : ℚ :=
  match start, planEnd with
  | some s, some e =>
      if e ≤ today then 100
      else if today ≤ s then 0
      else
        let totalDays : ℤ := e - s
        if totalDays ≤ 0 then 50
        else min 100 (max 0 ((today - s : ℚ) / (totalDays : ℚ) * 100))
  | _, _ => 0

/-! ## calculate_priority_score

The status factor table and the scoring body.  `row['PLAN END']` is modelled
as `Option (Option ℤ)`: the outer `Option` is column presence (a missing
column raises `KeyError`, caught by the `except` → 50), the inner one is
parseability (`errors='coerce'` turns garbage into `NaT`, handled with the
default `days_left = 100`). -/

def statusFactor (s : String) : ℚ :=
  if s = "TUNDA" then 80
  else if s = "DALAM PROSES" then 60
  else if s = "BELUM MULAI" then 40
  else if s = "SELESAI" then 0
  else 30

/-- Value of `days_left`: 100 for a missing/unparseable deadline, else
`max(1, (deadline - today).days)`. -/
def daysLeftOf (planEnd : Option ℤ) (today : ℤ) : ℤ :=
  match planEnd with
  | none => 100
  | some d => max 1 (d - today)

/-- Value of `deadline_factor` (the `days_left < 0` arm is kept although
`max(1, _)` makes it unreachable). -/
def deadlineFactorOf (planEnd : Option ℤ) (today : ℤ) : ℚ :=
  if daysLeftOf planEnd today < 0 then 100
  else min 100 ((100 : ℚ) / ((daysLeftOf planEnd today : ℤ) : ℚ))

def calculate_priority_score (planEnd : Option ℤ) (today : ℤ)
    (bobot : ℚ) (status : String) (complete : ℚ) : ℚ :=
  let deadlineFactor : ℚ := deadlineFactorOf planEnd today
  let weightFactor : ℚ := bobot * 10
  let incompleteFactor : ℚ := 100 - complete
  let score :=
    deadlineFactor * (4/10) + weightFactor * (3/10) +
      statusFactor status * (2/10) + incompleteFactor * (1/10)
  min 100 score

/-- A row as seen by the scoring `try` block: `none` in an outer position is a
field whose access raises (missing column / non-numeric value), caught by the
bare `except` returning 50. -/
structure ScoreRow where
  planEnd : Option (Option ℤ)
  bobot : Option ℚ
  status : Option String
  complete : Option ℚ

def scoreTotal (r : ScoreRow) (today : ℤ) : ℚ :=
  match r.planEnd, r.bobot, r.status, r.complete with
  | some pe, some b, some s, some c => calculate_priority_score pe today b s c
  | _, _, _, _ => 50

/-! ## S-curve builder (app.py lines 946-1029)

One task row of `timeline_df` as the per-period loop reads it.  `START` and
`PLAN END` are valid timestamps here (the timeline view requires them);
`BOBOT` may be missing (`NaN`, modelled `none`).  `% COMPLETE` is the value
after the 0-1 renormalisation block. -/

structure STask where
  start : ℤ
  planEnd : ℤ
  complete : ℚ
  bobot : Option ℚ

/-- Weekly period boundaries: `current = min_date; while current <= max_date:
append; current += timedelta(days=7)`. -/
def genPeriods (minD maxD : ℤ) : List ℤ :=
  if minD ≤ maxD then
    (List.range ((maxD - minD).toNat / 7 + 1)).map (fun k => minD + 7 * (k : ℤ))
  else []

/-- Planned fraction `task_planned`: 1 at/after `PLAN END`, 0 before `START`,
else `days_passed / total_days if total_days > 0 else 1.0`. -/
def taskPlanned (r : STask) (p : ℤ) : ℚ :=
  if r.planEnd ≤ p then 1
  else if p < r.start then 0
  else
    let totalDays : ℤ := r.planEnd - r.start
    if 0 < totalDays then (p - r.start : ℚ) / (totalDays : ℚ) else 1

/-- Actual fraction `task_actual`: current completion at/after today, 0 before
`START`, else
`min(complete, (days_passed / total_days) * complete if total_days > 0 else 0)`
with `total_days = today - start`. -/
def taskActual (r : STask) (today p : ℤ) : ℚ :=
  if today ≤ p then r.complete
  else if p < r.start then 0
  else
    let totalDays : ℤ := today - r.start
    min r.complete
      (if 0 < totalDays then (p - r.start : ℚ) / (totalDays : ℚ) * r.complete else 0)

/-- The inner accumulation loop for one period: returns
`(planned_progress, actual_progress, total_weight)` sums.  A row is skipped
when `row['START'].date() > period` (before the weight is even read) and when
its weight is missing or `<= 0`. -/
def periodAccum (rows : List STask) (today p : ℤ) : ℚ × ℚ × ℚ :=
  match rows with
  | [] => (0, 0, 0)
  | r :: rest =>
      let acc := periodAccum rest today p
      if p < r.start then acc
      else
        match r.bobot with
        | none => acc
        | some w =>
            if w ≤ 0 then acc
            else (taskPlanned r p * w + acc.1, taskActual r today p * w + acc.2.1, w + acc.2.2)

/-- Raw (pre-cummax) per-period pair `(planned %, actual %)`: the accumulated
sums normalised by total weight and scaled to percent, or `(0, 0)` when the
period has no qualifying weight. -/
def rawPeriod (rows : List STask) (today p : ℤ) : ℚ × ℚ :=
  let acc := periodAccum rows today p
  if 0 < acc.2.2 then (acc.1 / acc.2.2 * 100, acc.2.1 / acc.2.2 * 100) else (0, 0)

/-- Running maximum with seed `m` (tail of pandas `cummax`). -/
def cummaxAux (m : ℚ) : List ℚ → List ℚ
  | [] => []
  | x :: xs => max m x :: cummaxAux (max m x) xs

/-- pandas `Series.cummax` over a series listed in increasing period order. -/
def cummax : List ℚ → List ℚ
  | [] => []
  | x :: xs => x :: cummaxAux x xs

/-- The generated period list for a table: from the minimum `START` to the
maximum `PLAN END`, stepping 7 days (empty table gives no periods). -/
def periodsOf (rows : List STask) : List ℤ :=
  match rows with
  | [] => []
  | r :: rest =>
      genPeriods (rest.foldl (fun m t => min m t.start) r.start)
        (rest.foldl (fun m t => max m t.planEnd) r.planEnd)

/-- Published PLANNED series: raw weekly values post-processed with a running
maximum (`progress_df.loc[mask, 'Progress'].cummax()`). -/
def publishedPlanned (rows : List STask) (today : ℤ) : List ℚ :=
  cummax ((periodsOf rows).map (fun p => (rawPeriod rows today p).1))

/-- Published ACTUAL series, same post-processing. -/
def publishedActual (rows : List STask) (today : ℤ) : List ℚ :=
  cummax ((periodsOf rows).map (fun p => (rawPeriod rows today p).2))

/-! ## Earned-value metrics (app.py lines 1081-1111) -/

/-- Latest period selection:
`latest_periods = [p for p in time_periods if p <= today]` followed by
`max(latest_periods)` when non-empty. -/
def latestPeriodLE (periods : List ℤ) (asOf : ℤ) : Option ℤ :=
  (periods.filter (fun p => p ≤ asOf)).max?

/-- Look up the published series value at a period (`.mean()` of the single
matching row; an empty selection is `NaN`, turned into 0 by `pd.notnull`). -/
def progressAt (samples : List (ℤ × ℚ)) (p : ℤ) : ℚ :=
  match samples.find? (fun s => s.1 = p) with
  | some s => s.2
  | none => 0

/-- Triple `(current_planned, current_actual, spi)` as computed by the Earned
Value Metrics block: values of both published series at the latest generated
period `<= today`, and `spi = actual / planned if planned > 0 else 0`; all
zero when no period is `<= today`. -/
def earnedValue (rows : List STask) (today : ℤ) : ℚ × ℚ × ℚ :=
  let periods := periodsOf rows
  match latestPeriodLE periods today with
  | none => (0, 0, 0)
  | some lp =>
      let planned := progressAt (periods.zip (publishedPlanned rows today)) lp
      let actual := progressAt (periods.zip (publishedActual rows today)) lp
      (planned, actual, if 0 < planned then actual / planned else 0)

/-! ## Text normalizer `clean_text`

```
def clean_text(x):
    if pd.isna(x): return ''
    x = unicodedata.normalize('NFKD', str(x)).encode('ascii', 'ignore').decode('utf-8')
    x = re.sub(r'\s+', ' ', x)
    return x.strip().upper()
```

Strings are modelled as lists of Unicode code points (`List Nat`).  The
`normalize`/`encode('ascii','ignore')` composite is modelled as dropping the
code points `>= 128`: NFKD leaves ASCII code points untouched (they are
decomposition-invariant), which is all that the round-trip facts proved below
need; the ASCII residue of decomposing a non-ASCII code point is not
modelled. -/

/-- Code points matched by the regex class `\s` in the ASCII range:
space, tab, newline, vertical tab, form feed, carriage return. -/
def pyIsSpace (c : ℕ) : Bool :=
  c = 32 || c = 9 || c = 10 || c = 11 || c = 12 || c = 13

/-- Code points `c < 128` with `chr(c).isspace()`, the set stripped by
`str.strip()`: the `\s` class plus the separator controls `\x1c`-`\x1f`. -/
def pyStripSpace (c : ℕ) : Bool :=
  pyIsSpace c || (28 ≤ c && c ≤ 31)

/-- ASCII uppercasing of one code point, as Python `str.upper()` acts on the
pure-ASCII output of `encode('ascii','ignore')`. -/
def pyUpperChar (c : ℕ) : ℕ :=
  if 97 ≤ c && c ≤ 122 then c - 32 else c

/-- Model of `normalize('NFKD', x).encode('ascii', 'ignore')`. -/
def asciiIgnore (l : List ℕ) : List ℕ :=
  l.filter (fun c => c < 128)

/-- Model of `re.sub(r'\s+', ' ', x)`: each maximal run of `\s` characters
becomes one space.  The boolean tracks whether the previous kept character
closed a run. -/
def collapseWS (prevSpace : Bool) : List ℕ → List ℕ
  | [] => []
  | c :: cs =>
      if pyIsSpace c then
        if prevSpace then collapseWS true cs else 32 :: collapseWS true cs
      else c :: collapseWS false cs

/-- Left part of `str.strip()`. -/
def lstrip (l : List ℕ) : List ℕ :=
  l.dropWhile pyStripSpace

/-- Right part of `str.strip()`. -/
def rstrip : List ℕ → List ℕ
  | [] => []
  | c :: cs => if pyStripSpace c && (rstrip cs).isEmpty then [] else c :: rstrip cs

def pyStrip (l : List ℕ) : List ℕ :=
  rstrip (lstrip l)

/-- Body of `clean_text` on a non-null cell. -/
def cleanChars (l : List ℕ) : List ℕ :=
  (pyStrip (collapseWS false (asciiIgnore l))).map pyUpperChar

/-- Full `clean_text`: a missing cell (`pd.isna`) becomes the empty string. -/
def clean_text : Option (List ℕ) → List ℕ
  | none => []
  | some l => cleanChars l

/-! ## Late-task query (app.py lines 1220-1223)

```
late_df = df[(pd.to_datetime(df['PLAN END'], errors='coerce') < datetime.today())
             & (df['STATUS'] != 'SELESAI')]
late_df['LATE DAYS'] = (datetime.today() - pd.to_datetime(late_df['PLAN END'], ...)).dt.days
```

Timestamps are rationals measured in days, because `datetime.today()` carries
a time of day while `PLAN END` cells are typically midnight-aligned;
`timedelta.days` is the floor of the day difference. -/

structure LateRow where
  planEnd : Option ℚ
  status : String
deriving DecidableEq

/-- Rows selected into `late_df`; an unparseable `PLAN END` is `NaT`, and
`NaT < t` is false, so such rows are excluded. -/
def lateFilter (rows : List LateRow) (t : ℚ) : List LateRow :=
  rows.filter fun r =>
    (match r.planEnd with
     | some e => decide (e < t)
     | none => false) && !(r.status == "SELESAI")

/-- Annotation `LATE DAYS = (today - PLAN_END).days`. -/
def lateDays (t e : ℚ) : ℤ :=
  ⌊t - e⌋

/-! ## Schema loader `load_data` (app.py lines 80-149)

Two views of the loader are embedded.

For the round-trip claim, `loadRow`/`loadTable` is the per-row value
transformation a load applies to the explicit columns: `clean_text` on the
three text columns and the completion rescale.  A reload of an exported table
(CSV encoding is an out-of-scope external collaborator, modelled as the
identity) runs exactly this again: the derived-column branches are all
guarded by `if COL not in df.columns` and are skipped the second time.

For the row/column-preservation claim, `load_data` is the full first load on
a raw table that has none of the optional columns, including the
milestone/`DURATION` step, which calls `pd.to_datetime` WITHOUT
`errors='coerce'` and therefore raises on an unparseable date cell.  A date
cell is valid, empty (`NaN` → `NaT`, tolerated), or unparseable text. -/

structure Row where
  kontrak : List ℕ
  jenis : List ℕ
  status : List ℕ
  complete : ℚ
  start : Option ℤ
  planEnd : Option ℤ
  extra : ℚ
deriving DecidableEq

/-- Value-level work of one load on one row's explicit columns. -/
def loadRow (r : Row) : Row :=
  { r with
    kontrak := cleanChars r.kontrak
    jenis := cleanChars r.jenis
    status := cleanChars r.status
    complete := rescaleComplete r.complete }

def loadTable (t : List Row) : List Row :=
  t.map loadRow

inductive DateCell
  | val (d : ℤ)
  | empty
  | bad
deriving DecidableEq

/-- Strict `pd.to_datetime` (default `errors='raise'`): an unparseable cell
raises `ValueError`; an empty cell is `NaT`. -/
def toDatetimeStrict : DateCell → Except String (Option ℤ)
  | .val d => .ok (some d)
  | .empty => .ok none
  | .bad => .error "ValueError"

/-- Coercing `pd.to_datetime(_, errors='coerce')`: an unparseable cell is
`NaT`. -/
def toDatetimeCoerce : DateCell → Option ℤ
  | .val d => some d
  | .empty => none
  | .bad => none

structure RawRow where
  kontrak : List ℕ
  jenis : List ℕ
  status : List ℕ
  complete : ℚ
  start : DateCell
  planEnd : DateCell
  bobot : ℚ
  extra : ℚ
deriving DecidableEq

/-- Hierarchy inference: `len(str(x).split('.')) if re.match(r'^\d+(\.\d+)*', str(x)) else 1`.
The regex matches exactly when the description starts with a digit, and the
split counts the dots of the whole description. -/
def taskLevelOf (jenis : List ℕ) : ℕ :=
  match jenis with
  | c :: _ => if 48 ≤ c ∧ c ≤ 57 then jenis.count 46 + 1 else 1
  | [] => 1

structure EnrichedRow where
  base : RawRow
  task_id : ℕ
  task_level : ℕ
  duration : Option ℤ
  is_milestone : Bool
  plan_progress : ℚ
deriving DecidableEq

/-- Full first load of a raw table carrying none of the optional columns
(`TASK_ID`, `TASK_LEVEL`, `IS_MILESTONE`, `PREDECESSORS`, `PLAN_PROGRESS`
absent, so every derivation branch runs).  The synthetic predecessor chain is
an added column the claims never constrain and is not carried in
`EnrichedRow`.  The milestone step parses both date columns strictly, so one
unparseable cell aborts the whole load with the pandas `ValueError`. -/
def load_data (today : ℤ) (rows : List RawRow) : Except String (List EnrichedRow) := do
  let cleaned := rows.map fun r =>
    { r with
      kontrak := cleanChars r.kontrak
      jenis := cleanChars r.jenis
      status := cleanChars r.status
      complete := rescaleComplete r.complete }
  let ends ← cleaned.mapM fun r => toDatetimeStrict r.planEnd
  let starts ← cleaned.mapM fun r => toDatetimeStrict r.start
  let durations := List.zipWith
    (fun e s =>
      match e, s with
      | some ev, some sv => some (ev - sv)
      | _, _ => (none : Option ℤ))
    ends starts
  return (cleaned.zip durations).enum.map fun ⟨i, r, dur⟩ =>
    { base := r
      task_id := i
      task_level := taskLevelOf r.jenis
      duration := dur
      is_milestone := match dur with
        | some d => d ≤ 1
        | none => false
      plan_progress :=
        calculate_planned_progress (toDatetimeCoerce r.start) (toDatetimeCoerce r.planEnd) today }

/-! ## Supporting lemmas -/

theorem cummaxAux_chain (l : List ℚ) : ∀ m : ℚ, List.Chain (· ≤ ·) m (cummaxAux m l) := by
  induction l with
  | nil => intro m; exact List.Chain.nil
  | cons x xs ih => intro m; exact List.Chain.cons (le_max_left m x) (ih (max m x))

theorem cummax_sorted (l : List ℚ) : List.Sorted (· ≤ ·) (cummax l) := by
  cases l with
  | nil => simp [cummax]
  | cons x xs =>
      have h := List.chain_iff_pairwise.mp (cummaxAux_chain xs x)
      simpa [cummax, List.Sorted] using h

theorem statusFactor_nonneg (s : String) : 0 ≤ statusFactor s := by
  unfold statusFactor
  split_ifs <;> norm_num

/-! ### Idempotence of the text normalizer

`clean_text` output is pure ASCII, every whitespace in it is a single plain
space, and it has no leading or trailing stripped character; on such strings
each stage of `clean_text` is the identity.  These lemmas establish that and
conclude `cleanChars (cleanChars l) = cleanChars l`, which the round-trip
claim needs. -/

/-- Adjacent-pair invariant of collapsed strings: no space is followed by a
space. -/
def noRun (a b : ℕ) : Prop := pyIsSpace a = true → pyIsSpace b = false

theorem pyIsSpace_upper (c : ℕ) : pyIsSpace (pyUpperChar c) = pyIsSpace c := by
  unfold pyUpperChar
  split
  · next h =>
      simp only [Bool.and_eq_true, decide_eq_true_eq] at h
      have h1 : pyIsSpace (c - 32) = false := by simp [pyIsSpace]; omega
      have h2 : pyIsSpace c = false := by simp [pyIsSpace]; omega
      rw [h1, h2]
  · rfl

theorem pyStripSpace_upper (c : ℕ) : pyStripSpace (pyUpperChar c) = pyStripSpace c := by
  unfold pyStripSpace
  rw [pyIsSpace_upper]
  unfold pyUpperChar
  split
  · next h =>
      simp only [Bool.and_eq_true, decide_eq_true_eq] at h
      have h1 : (decide (28 ≤ c - 32) && decide (c - 32 ≤ 31)) = false := by
        simp; omega
      have h2 : (decide (28 ≤ c) && decide (c ≤ 31)) = false := by
        simp; omega
      rw [h1, h2]
  · rfl

theorem pyUpperChar_lt128 (c : ℕ) (h : c < 128) : pyUpperChar c < 128 := by
  unfold pyUpperChar
  split <;> omega

theorem pyUpperChar_idem (c : ℕ) : pyUpperChar (pyUpperChar c) = pyUpperChar c := by
  unfold pyUpperChar
  split
  · next h =>
      simp only [Bool.and_eq_true, decide_eq_true_eq] at h
      split
      · next h2 =>
          simp only [Bool.and_eq_true, decide_eq_true_eq] at h2
          omega
      · rfl
  · rfl

theorem collapseWS_space_eq (l : List ℕ) :
    ∀ b : Bool, ∀ c ∈ collapseWS b l, pyIsSpace c = true → c = 32 := by
  induction l with
  | nil => intro b c hc; simp [collapseWS] at hc
  | cons x xs ih =>
      intro b c hc hsp
      by_cases hx : pyIsSpace x = true
      · cases b with
        | true =>
            simp only [collapseWS, hx, if_true] at hc
            exact ih true c hc hsp
        | false =>
            simp only [collapseWS, hx, if_true] at hc
            rcases List.mem_cons.mp hc with h32 | h
            · exact h32
            · exact ih true c h hsp
      · have hx' : pyIsSpace x = false := by
          cases h : pyIsSpace x
          · rfl
          · exact absurd h hx
        simp only [collapseWS, hx', Bool.false_eq_true, if_false] at hc
        rcases List.mem_cons.mp hc with hcx | h
        · rw [hcx] at hsp
          rw [hsp] at hx'
          cases hx'
        · exact ih false c h hsp

theorem collapseWS_true_head (l : List ℕ) :
    ∀ c, (collapseWS true l).head? = some c → pyIsSpace c = false := by
  induction l with
  | nil => intro c hc; simp [collapseWS] at hc
  | cons x xs ih =>
      intro c hc
      by_cases hx : pyIsSpace x = true
      · simp only [collapseWS, hx, if_true] at hc
        exact ih c hc
      · have hx' : pyIsSpace x = false := by
          cases h : pyIsSpace x
          · rfl
          · exact absurd h hx
        simp only [collapseWS, hx', Bool.false_eq_true, if_false, List.head?_cons,
          Option.some.injEq] at hc
        rw [← hc]
        exact hx'

theorem collapseWS_chain (l : List ℕ) :
    ∀ b : Bool, List.Chain' noRun (collapseWS b l) := by
  induction l with
  | nil => intro b; simp [collapseWS]
  | cons x xs ih =>
      intro b
      by_cases hx : pyIsSpace x = true
      · cases b with
        | true => simpa [collapseWS, hx] using ih true
        | false =>
            simp only [collapseWS, hx, if_true]
            refine List.chain'_cons'.mpr ⟨?_, ih true⟩
            intro y hy _
            exact collapseWS_true_head xs y hy
      · have hx' : pyIsSpace x = false := by
          cases h : pyIsSpace x
          · rfl
          · exact absurd h hx
        simp only [collapseWS, hx', Bool.false_eq_true, if_false]
        refine List.chain'_cons'.mpr ⟨?_, ih false⟩
        intro y _ hsp
        rw [hsp] at hx'
        cases hx'

theorem mem_collapseWS (l : List ℕ) :
    ∀ b : Bool, ∀ c ∈ collapseWS b l, c = 32 ∨ c ∈ l := by
  induction l with
  | nil => intro b c hc; simp [collapseWS] at hc
  | cons x xs ih =>
      intro b c hc
      by_cases hx : pyIsSpace x = true
      · cases b with
        | true =>
            simp only [collapseWS, hx, if_true] at hc
            rcases ih true c hc with h | h
            · exact Or.inl h
            · exact Or.inr (List.mem_cons_of_mem x h)
        | false =>
            simp only [collapseWS, hx, if_true] at hc
            rcases List.mem_cons.mp hc with h | h
            · exact Or.inl h
            · rcases ih true c h with h' | h'
              · exact Or.inl h'
              · exact Or.inr (List.mem_cons_of_mem x h')
      · have hx' : pyIsSpace x = false := by
          cases h : pyIsSpace x
          · rfl
          · exact absurd h hx
        simp only [collapseWS, hx', Bool.false_eq_true, if_false] at hc
        rcases List.mem_cons.mp hc with h | h
        · exact Or.inr (h ▸ List.mem_cons_self x xs)
        · rcases ih false c h with h' | h'
          · exact Or.inl h'
          · exact Or.inr (List.mem_cons_of_mem x h')

theorem collapseWS_fixed (l : List ℕ)
    (hsp : ∀ c ∈ l, pyIsSpace c = true → c = 32)
    (hch : List.Chain' noRun l) :
    collapseWS false l = l ∧
      ((∀ c, l.head? = some c → pyIsSpace c = false) → collapseWS true l = l) := by
  induction l with
  | nil => exact ⟨rfl, fun _ => rfl⟩
  | cons x xs ih =>
      have hxs_sp : ∀ c ∈ xs, pyIsSpace c = true → c = 32 :=
        fun c hc => hsp c (List.mem_cons_of_mem x hc)
      have hxs_ch : List.Chain' noRun xs := (List.chain'_cons'.mp hch).2
      have hfirst : ∀ y, xs.head? = some y → noRun x y :=
        fun y hy => (List.chain'_cons'.mp hch).1 y hy
      obtain ⟨ihA, ihB⟩ := ih hxs_sp hxs_ch
      by_cases hx : pyIsSpace x = true
      · have hx32 : x = 32 := hsp x (List.mem_cons_self x xs) hx
        have htail : collapseWS true xs = xs :=
          ihB (fun y hy => hfirst y hy hx)
        constructor
        · subst hx32
          simp [collapseWS, hx, htail]
        · intro hhead
          have := hhead x List.head?_cons
          rw [hx] at this
          cases this
      · have hx' : pyIsSpace x = false := by
          cases h : pyIsSpace x
          · rfl
          · exact absurd h hx
        constructor
        · simp [collapseWS, hx', ihA]
        · intro _
          simp [collapseWS, hx', ihA]

theorem rstrip_subset (l : List ℕ) : ∀ c ∈ rstrip l, c ∈ l := by
  induction l with
  | nil => intro c hc; simp [rstrip] at hc
  | cons x xs ih =>
      intro c hc
      unfold rstrip at hc
      split at hc
      · cases hc
      · rcases List.mem_cons.mp hc with h | h
        · exact h ▸ List.mem_cons_self x xs
        · exact List.mem_cons_of_mem x (ih c h)

theorem rstrip_head? (l : List ℕ) :
    ∀ y, (rstrip l).head? = some y → l.head? = some y := by
  induction l with
  | nil => intro y hy; simp [rstrip] at hy
  | cons x xs _ =>
      intro y hy
      unfold rstrip at hy
      split at hy
      · cases hy
      · simpa using hy

theorem rstrip_chain (l : List ℕ) (h : List.Chain' noRun l) :
    List.Chain' noRun (rstrip l) := by
  induction l with
  | nil => simp [rstrip]
  | cons x xs ih =>
      unfold rstrip
      split
      · exact List.chain'_nil
      · refine List.chain'_cons'.mpr ⟨?_, ih (List.chain'_cons'.mp h).2⟩
        intro y hy
        exact (List.chain'_cons'.mp h).1 y (rstrip_head? xs y hy)

theorem rstrip_getLast_not (l : List ℕ) :
    ∀ y, (rstrip l).getLast? = some y → pyStripSpace y = false := by
  induction l with
  | nil => intro y hy; simp [rstrip] at hy
  | cons x xs ih =>
      intro y hy
      unfold rstrip at hy
      split at hy
      · cases hy
      · next hcond =>
          cases hxs : rstrip xs with
          | nil =>
              rw [hxs] at hy
              simp only [List.getLast?_singleton, Option.some.injEq] at hy
              rw [hxs] at hcond
              simp only [List.isEmpty_nil, Bool.and_true] at hcond
              rw [← hy]
              cases h : pyStripSpace x
              · rfl
              · exact absurd h (by simpa using hcond)
          | cons z zs =>
              rw [hxs] at hy
              rw [List.getLast?_cons_cons] at hy
              exact ih y (hxs ▸ hy)

theorem rstrip_fixed (l : List ℕ)
    (h : ∀ y, l.getLast? = some y → pyStripSpace y = false) : rstrip l = l := by
  induction l with
  | nil => rfl
  | cons x xs ih =>
      unfold rstrip
      cases hxs : xs with
      | nil =>
          subst hxs
          have hx := h x (by simp)
          simp [rstrip, hx]
      | cons z zs =>
          subst hxs
          have htail : rstrip (z :: zs) = z :: zs := by
            refine ih ?_
            intro y hy
            refine h y ?_
            rw [List.getLast?_cons_cons]
            exact hy
          rw [htail]
          simp

theorem lstrip_head_not (l : List ℕ) :
    ∀ c, (lstrip l).head? = some c → pyStripSpace c = false := by
  intro c hc
  have h := List.head?_dropWhile_not pyStripSpace l
  rw [show l.dropWhile pyStripSpace = lstrip l from rfl, hc] at h
  exact h

theorem pyStrip_subset (l : List ℕ) : ∀ c ∈ pyStrip l, c ∈ l := by
  intro c hc
  exact (List.dropWhile_sublist pyStripSpace).subset (rstrip_subset (lstrip l) c hc)

theorem cleanChars_ascii (l : List ℕ) : ∀ c ∈ cleanChars l, c < 128 := by
  intro c hc
  unfold cleanChars at hc
  rcases List.mem_map.mp hc with ⟨d, hd, rfl⟩
  have hdw := pyStrip_subset _ d hd
  rcases mem_collapseWS (asciiIgnore l) false d hdw with h32 | hmem
  · subst h32
    exact pyUpperChar_lt128 32 (by norm_num)
  · have := (List.mem_filter.mp hmem).2
    exact pyUpperChar_lt128 d (by simpa using this)

theorem cleanChars_space_eq (l : List ℕ) :
    ∀ c ∈ cleanChars l, pyIsSpace c = true → c = 32 := by
  intro c hc hsp
  unfold cleanChars at hc
  rcases List.mem_map.mp hc with ⟨d, hd, rfl⟩
  rw [pyIsSpace_upper] at hsp
  have hdw := pyStrip_subset _ d hd
  have hd32 := collapseWS_space_eq (asciiIgnore l) false d hdw hsp
  subst hd32
  rfl

theorem cleanChars_chain (l : List ℕ) : List.Chain' noRun (cleanChars l) := by
  unfold cleanChars
  rw [List.chain'_map]
  have hw : List.Chain' noRun (collapseWS false (asciiIgnore l)) :=
    collapseWS_chain (asciiIgnore l) false
  have hls : List.Chain' noRun (lstrip (collapseWS false (asciiIgnore l))) :=
    List.Chain'.suffix hw (List.dropWhile_suffix pyStripSpace)
  have hs : List.Chain' noRun (pyStrip (collapseWS false (asciiIgnore l))) :=
    rstrip_chain _ hls
  refine hs.imp ?_
  intro a b hab
  unfold noRun at hab ⊢
  rw [pyIsSpace_upper, pyIsSpace_upper]
  exact hab

theorem cleanChars_head_not (l : List ℕ) :
    ∀ c, (cleanChars l).head? = some c → pyStripSpace c = false := by
  intro c hc
  unfold cleanChars at hc
  rw [List.head?_map] at hc
  cases hs : (pyStrip (collapseWS false (asciiIgnore l))).head? with
  | none => rw [hs] at hc; cases hc
  | some d =>
      rw [hs] at hc
      simp only [Option.map_some', Option.some.injEq] at hc
      have hd := lstrip_head_not _ d (rstrip_head? _ d hs)
      rw [← hc, pyStripSpace_upper]
      exact hd

theorem cleanChars_getLast_not (l : List ℕ) :
    ∀ c, (cleanChars l).getLast? = some c → pyStripSpace c = false := by
  intro c hc
  unfold cleanChars at hc
  rw [List.getLast?_map] at hc
  cases hs : (pyStrip (collapseWS false (asciiIgnore l))).getLast? with
  | none => rw [hs] at hc; cases hc
  | some d =>
      rw [hs] at hc
      simp only [Option.map_some', Option.some.injEq] at hc
      have hd := rstrip_getLast_not (lstrip (collapseWS false (asciiIgnore l))) d hs
      rw [← hc, pyStripSpace_upper]
      exact hd

theorem cleanChars_idem (l : List ℕ) : cleanChars (cleanChars l) = cleanChars l := by
  have ha : asciiIgnore (cleanChars l) = cleanChars l := by
    refine List.filter_eq_self.mpr ?_
    intro c hc
    simpa using cleanChars_ascii l c hc
  have hco : collapseWS false (cleanChars l) = cleanChars l :=
    (collapseWS_fixed _ (cleanChars_space_eq l) (cleanChars_chain l)).1
  have hls : lstrip (cleanChars l) = cleanChars l := by
    cases hc : cleanChars l with
    | nil => rfl
    | cons c cs =>
        have hh := cleanChars_head_not l c (by rw [hc]; rfl)
        unfold lstrip
        rw [List.dropWhile_cons]
        simp [hh]
  have hrs : rstrip (cleanChars l) = cleanChars l :=
    rstrip_fixed _ (fun y hy => cleanChars_getLast_not l y hy)
  have hup : (cleanChars l).map pyUpperChar = cleanChars l := by
    unfold cleanChars
    rw [List.map_map]
    congr 1
    funext c
    simp only [Function.comp_apply]
    exact pyUpperChar_idem c
  have step : cleanChars (cleanChars l) =
      (rstrip (lstrip (collapseWS false (asciiIgnore (cleanChars l))))).map pyUpperChar := rfl
  rw [step, ha, hco, hls, hrs]
  exact hup

/-! ## Claims -/

/-- C1: for every input table and as-of date, the published S-curve series are
monotone: both the PLANNED and the ACTUAL sequences of progress samples are
non-decreasing across increasing period order, thanks to the running-maximum
(`cummax`) post-processing pass, regardless of the raw per-period weighted
averages. -/
theorem c1_scurve_monotone (rows : List STask) (today : ℤ) :
    List.Sorted (· ≤ ·) (publishedPlanned rows today) ∧
    List.Sorted (· ≤ ·) (publishedActual rows today) :=
  ⟨cummax_sorted _, cummax_sorted _⟩

/-- C6: at load time, a numeric completion-percentage value v is multiplied
by 100 when v ≤ 1 and passed through unchanged when v > 1, with no clamping
of out-of-range inputs. -/
theorem c6_rescale_complete (v : ℚ) :
    (v ≤ 1 → rescaleComplete v = v * 100) ∧ (1 < v → rescaleComplete v = v) := by
  constructor
  · intro h
    simp [rescaleComplete, h]
  · intro h
    simp [rescaleComplete, not_le.mpr h]

/-- C6 witness: 0.005 loads as 0.5 (no clamping of the resulting sub-1 value)
and 150 loads as 150 (no clamping of out-of-range values). -/
theorem c6_rescale_complete_witness :
    rescaleComplete (1 / 200) = 1 / 2 ∧ rescaleComplete 150 = 150 := by
  constructor
  · have h := (c6_rescale_complete (1 / 200)).1 (by norm_num)
    rw [h]
    norm_num
  · exact (c6_rescale_complete 150).2 (by norm_num)

/-- C2, counterexample: for start = planned-end = 2024-01-01 (day 19723)
evaluated as of that same date, `calculate_planned_progress` returns 100, not
the 50 the claim's zero-length-reached rule predicts: the `today >= end`
branch fires first. -/
theorem c2_zero_length_is_100 :
    calculate_planned_progress (some 19723) (some 19723) 19723 = 100 ∧
    calculate_planned_progress (some 19723) (some 19723) 19723 ≠ 50 := by
  have h : calculate_planned_progress (some 19723) (some 19723) 19723 = 100 := by
    simp [calculate_planned_progress]
  exact ⟨h, by rw [h]; norm_num⟩

/-- C2, amended: planned progress by date is 100 as soon as the date reaches
the planned end (this branch takes precedence, so a zero-length interval that
has been reached yields 100, not 50), 0 when the date is at or before the
start and strictly before the end, and the clamped linear interpolation when
strictly between start and end (where, at whole-day granularity, the interval
is positive, so the 50 branch is unreachable). -/
theorem c2_planned_progress_amended (s e d : ℤ) :
    (e ≤ d → calculate_planned_progress (some s) (some e) d = 100) ∧
    (d < e → d ≤ s → calculate_planned_progress (some s) (some e) d = 0) ∧
    (s < d → d < e →
      calculate_planned_progress (some s) (some e) d =
        min 100 (max 0 (((d - s : ℤ) : ℚ) / ((e - s : ℤ) : ℚ) * 100))) := by
  refine ⟨fun h => ?_, fun h1 h2 => ?_, fun h1 h2 => ?_⟩
  · simp [calculate_planned_progress, h]
  · simp [calculate_planned_progress, h1, h2, not_le.mpr h1]
  · have he : ¬ e ≤ d := not_le.mpr h2
    have hs : ¬ d ≤ s := not_le.mpr h1
    have hpos : ¬ e - s ≤ 0 := by omega
    simp [calculate_planned_progress, he, hs, hpos]

/-- C2 witness: a task over days 0-10 evaluated at day 5 is at 50%. -/
theorem c2_planned_progress_amended_witness :
    calculate_planned_progress (some 0) (some 10) 5 = 50 := by
  have h := (c2_planned_progress_amended 0 10 5).2.2 (by norm_num) (by norm_num)
  rw [h]; norm_num

/-- C3, counterexample: the priority score has no lower clamp, so a row whose
completion percentage is out of range after load (2000, from a raw cell value
of 2000 that load leaves unchanged) scores far below 0: with weight 0, status
SELESAI and deadline 100 days out the score is 0.4 - 190 = -189.6. -/
theorem c3_score_below_zero :
    calculate_priority_score (some 100) 0 0 "SELESAI" 2000 < 0 := by
  have hsf : statusFactor "SELESAI" = 0 := by decide
  have hdf : deadlineFactorOf (some 100) 0 = 1 := by
    unfold deadlineFactorOf daysLeftOf
    norm_num [max_def, min_def]
  unfold calculate_priority_score
  rw [hsf, hdf]
  norm_num [min_def]

/-- C3, amended: the priority score is clamped above by 100 for all inputs,
but it is bounded below by 0 only for rows with non-negative weight and
completion percentage at most 100; an unclamped completion above 100 (or a
negative weight) can push it below 0. -/
theorem daysLeftOf_nonneg (pe : Option ℤ) (today : ℤ) : 0 ≤ daysLeftOf pe today := by
  cases pe with
  | none => norm_num [daysLeftOf]
  | some d => exact le_trans (by norm_num) (le_max_left 1 (d - today))

theorem deadlineFactorOf_nonneg (pe : Option ℤ) (today : ℤ) :
    0 ≤ deadlineFactorOf pe today := by
  unfold deadlineFactorOf
  split
  · norm_num
  · refine le_min (by norm_num) (div_nonneg (by norm_num) ?_)
    exact_mod_cast daysLeftOf_nonneg pe today

theorem c3_priority_score_amended (pe : Option ℤ) (today : ℤ) (b : ℚ)
    (s : String) (c : ℚ) :
    calculate_priority_score pe today b s c ≤ 100 ∧
    (0 ≤ b → c ≤ 100 → 0 ≤ calculate_priority_score pe today b s c) := by
  unfold calculate_priority_score
  constructor
  · exact min_le_left _ _
  · intro hb hc
    have hdf := deadlineFactorOf_nonneg pe today
    have hsf := statusFactor_nonneg s
    have hif : (0 : ℚ) ≤ 100 - c := by linarith
    refine le_min (by norm_num) ?_
    positivity

/-- C3 witness: an ordinary in-range row scores within the published
interval. -/
theorem c3_priority_score_amended_witness :
    0 ≤ calculate_priority_score (some 10) 0 1 "TUNDA" 50 ∧
    calculate_priority_score (some 10) 0 1 "TUNDA" 50 ≤ 100 :=
  ⟨(c3_priority_score_amended (some 10) 0 1 "TUNDA" 50).2 (by norm_num) (by norm_num),
   (c3_priority_score_amended (some 10) 0 1 "TUNDA" 50).1⟩

/-- C7, counterexample: an unparseable `PLAN END` does not raise — it is
coerced to `NaT` and handled with the default `days_left = 100` — so the
score is computed normally (here 10.4), not the neutral default 50. -/
theorem c7_bad_date_not_fifty :
    scoreTotal ⟨some none, some 0, some "SELESAI", some 0⟩ 0 = 52 / 5 ∧
    scoreTotal ⟨some none, some 0, some "SELESAI", some 0⟩ 0 ≠ 50 := by
  have h : scoreTotal ⟨some none, some 0, some "SELESAI", some 0⟩ 0 = 52 / 5 := by
    have hsf : statusFactor "SELESAI" = 0 := by decide
    have hdf : deadlineFactorOf none 0 = 1 := by
      unfold deadlineFactorOf daysLeftOf
      norm_num [min_def]
    show calculate_priority_score none 0 0 "SELESAI" 0 = 52 / 5
    unfold calculate_priority_score
    rw [hsf, hdf]
    norm_num [min_def]
  exact ⟨h, by rw [h]; norm_num⟩

/-- C7, amended: scoring is total and any exception during scoring (a missing
or unreadable field) yields the neutral default 50; an unparseable — but
present — planned-end date is not an exception: it is coerced and scored with
a default 100 days left. -/
theorem c7_exception_defaults (r : ScoreRow) (today : ℤ)
    (h : r.planEnd = none ∨ r.bobot = none ∨ r.status = none ∨ r.complete = none) :
    scoreTotal r today = 50 := by
  obtain ⟨pe, b, s, c⟩ := r
  cases pe <;> cases b <;> cases s <;> cases c <;> simp_all [scoreTotal]

/-- C7 witness: a row whose `PLAN END` column is missing entirely scores
50. -/
theorem c7_exception_defaults_witness :
    scoreTotal ⟨none, some 1, some "TUNDA", some 50⟩ 0 = 50 :=
  c7_exception_defaults ⟨none, some 1, some "TUNDA", some 50⟩ 0 (Or.inl rfl)

/-- The predicate that actually gates a task into a period's sums: positive
weight AND start at or before the period. -/
def qualifies (p : ℤ) (r : STask) : Bool :=
  decide (r.start ≤ p) &&
    (match r.bobot with
     | some w => decide (0 < w)
     | none => false)

/-- C4, counterexample: two tasks both of weight 1; at period 10 the second
task (start 100 > 10) is skipped by `continue` before the weight check, so
the denominator is 1, not the claim's 2, and the planned percentage is 100,
not the 50 the claim's accounting would give. -/
theorem c4_future_task_excluded :
    (periodAccum [⟨0, 10, 0, some 1⟩, ⟨100, 110, 0, some 1⟩] 0 10).2.2 = 1 ∧
    (periodAccum [⟨0, 10, 0, some 1⟩, ⟨100, 110, 0, some 1⟩] 0 10).2.2 ≠ 1 + 1 ∧
    (rawPeriod [⟨0, 10, 0, some 1⟩, ⟨100, 110, 0, some 1⟩] 0 10).1 = 100 := by
  refine ⟨?_, ?_, ?_⟩ <;>
    norm_num [rawPeriod, periodAccum, taskPlanned, taskActual]

/-- C4, amended: a task qualifies for a period's sums iff it has positive
weight AND its start is at or before the period; a task whose start is after
the period is excluded from both numerator and denominator (the loop skips it
before reading its weight), so early-period denominators cover only
already-started tasks.  Tasks with missing or non-positive weight are
excluded as the claim says. -/
theorem c4_qualifying_amended (rows : List STask) (today p : ℤ) :
    periodAccum rows today p =
      (((rows.filter (qualifies p)).map (fun r => taskPlanned r p * r.bobot.getD 0)).sum,
       ((rows.filter (qualifies p)).map (fun r => taskActual r today p * r.bobot.getD 0)).sum,
       ((rows.filter (qualifies p)).map (fun r => r.bobot.getD 0)).sum) := by
  induction rows with
  | nil => simp [periodAccum]
  | cons r rest ih =>
      by_cases hp : p < r.start
      · have hq : qualifies p r = false := by
          simp [qualifies, not_le.mpr hp]
        simp [periodAccum, hp, hq, ih]
      · cases hb : r.bobot with
        | none =>
            have hq : qualifies p r = false := by simp [qualifies, hb]
            simp [periodAccum, hp, hb, hq, ih]
        | some w =>
            by_cases hw : w ≤ 0
            · have hq : qualifies p r = false := by
                simp [qualifies, hb, not_lt.mpr hw]
              simp [periodAccum, hp, hb, hw, hq, ih]
            · have hq : qualifies p r = true := by
                simp [qualifies, hb, not_lt.mp hp, lt_of_not_le hw]
              simp [periodAccum, hp, hb, hw, hq, ih]

/-- Structure of the spi component of the earned-value triple. -/
theorem earnedValue_spi_eq (rows : List STask) (today : ℤ) :
    (earnedValue rows today).2.2 =
      if 0 < (earnedValue rows today).1
      then (earnedValue rows today).2.1 / (earnedValue rows today).1
      else 0 := by
  unfold earnedValue
  rcases h : latestPeriodLE (periodsOf rows) today with _ | lp <;> simp [h]

/-- C5, counterexample: a table whose only positively-weighted task starts
after the latest evaluated period gives planned = actual = 0 at that period,
and the SPI is then 0, not 1, although actual equals planned — refuting the
claim's "SPI equals exactly 1.0 if and only if actual equals planned". -/
theorem c5_spi_zero_when_equal :
    earnedValue [⟨0, 20, 0, some 0⟩, ⟨100, 110, 0, some 1⟩] 0 = (0, 0, 0) ∧
    (earnedValue [⟨0, 20, 0, some 0⟩, ⟨100, 110, 0, some 1⟩] 0).2.1 =
      (earnedValue [⟨0, 20, 0, some 0⟩, ⟨100, 110, 0, some 1⟩] 0).1 ∧
    (earnedValue [⟨0, 20, 0, some 0⟩, ⟨100, 110, 0, some 1⟩] 0).2.2 ≠ 1 := by
  refine ⟨?_, ?_, ?_⟩ <;> decide

/-- C5, amended: SPI is actual / planned at the latest generated period at or
before the as-of date, 0 when the planned value there is 0 (or when no period
qualifies); SPI equals 1.0 iff actual equals planned AND the planned value at
that period is positive — when both are 0 the SPI is 0, not 1. -/
theorem c5_spi_amended (rows : List STask) (today : ℤ) :
    ((earnedValue rows today).1 = 0 → (earnedValue rows today).2.2 = 0) ∧
    (0 < (earnedValue rows today).1 →
      (earnedValue rows today).2.2 =
        (earnedValue rows today).2.1 / (earnedValue rows today).1) ∧
    ((earnedValue rows today).2.2 = 1 ↔
      ((earnedValue rows today).2.1 = (earnedValue rows today).1 ∧
        0 < (earnedValue rows today).1)) := by
  have hs := earnedValue_spi_eq rows today
  refine ⟨fun h0 => ?_, fun hp => ?_, ?_⟩
  · rw [hs, h0]
    norm_num
  · rw [hs, if_pos hp]
  · rw [hs]
    by_cases hp : 0 < (earnedValue rows today).1
    · rw [if_pos hp]
      constructor
      · intro h1
        exact ⟨(div_eq_one_iff_eq (ne_of_gt hp)).mp h1, hp⟩
      · rintro ⟨he, -⟩
        rw [he]
        exact div_self (ne_of_gt hp)
    · rw [if_neg hp]
      constructor
      · intro h1
        exact absurd h1.symm one_ne_zero
      · rintro ⟨-, hp'⟩
        exact absurd hp' hp

/-- C5 witness: on an empty table no period qualifies and the SPI is 0. -/
theorem c5_spi_amended_witness : (earnedValue [] 0).2.2 = 0 :=
  (c5_spi_amended [] 0).1 rfl

/-- C8, counterexample: `datetime.today()` carries a time of day, so a task
whose planned end is midnight of the current day (here: end at day 0, as-of
half a day later) is included in the late set with `LATE DAYS = 0`, refuting
"for every included row this late-days value is >= 1". -/
theorem c8_late_days_zero :
    (⟨some 0, "TUNDA"⟩ : LateRow) ∈ lateFilter [⟨some 0, "TUNDA"⟩] (1 / 2) ∧
    lateDays (1 / 2) 0 = 0 ∧ ¬ 1 ≤ lateDays (1 / 2) 0 := by
  have hd : lateDays (1 / 2) 0 = 0 := by
    unfold lateDays
    rw [show (1 / 2 - 0 : ℚ) = 1 / 2 by norm_num]
    rw [Int.floor_eq_zero_iff]
    constructor <;> norm_num
  refine ⟨?_, hd, by rw [hd]; norm_num⟩
  simp only [lateFilter, List.mem_filter, List.mem_singleton]
  norm_num
  decide

/-- C8, amended: the late set at as-of time t holds exactly the rows with a
parseable planned-end strictly before t and status not SELESAI, annotated
with late-days = the floor of t - planned-end in days; for included rows this
is >= 0, and it is >= 1 whenever both t and the planned-end are whole-day
(midnight-aligned) timestamps — but because the as-of time is
`datetime.today()` with a time of day, a row less than one day late gets
late-days 0. -/
theorem c8_late_amended (rows : List LateRow) (t : ℚ) (r : LateRow) :
    (r ∈ lateFilter rows t ↔
      r ∈ rows ∧ ∃ e, r.planEnd = some e ∧ e < t ∧ r.status ≠ "SELESAI") ∧
    (∀ e : ℚ, r.planEnd = some e → e < t →
      0 ≤ lateDays t e ∧
        ((∃ n : ℤ, t = (n : ℚ)) → (∃ m : ℤ, e = (m : ℚ)) → 1 ≤ lateDays t e)) := by
  constructor
  · cases hpe : r.planEnd with
    | none => simp [lateFilter, List.mem_filter, hpe]
    | some e => simp [lateFilter, List.mem_filter, hpe, and_assoc]
  · intro e hpe het
    constructor
    · refine Int.le_floor.mpr ?_
      push_cast
      linarith
    · rintro ⟨n, rfl⟩ ⟨m, rfl⟩
      have hmn : m < n := by exact_mod_cast het
      unfold lateDays
      rw [show ((n : ℚ) - (m : ℚ)) = ((n - m : ℤ) : ℚ) by push_cast; ring]
      rw [Int.floor_intCast]
      omega

/-- Rescaling a second time is the identity exactly on values that are
greater than 1 or zero after the first pass. -/
theorem rescaleComplete_fix (x : ℚ)
    (h : 1 < rescaleComplete x ∨ rescaleComplete x = 0) :
    rescaleComplete (rescaleComplete x) = rescaleComplete x := by
  rcases h with h | h
  · rw [rescaleComplete, if_neg (not_le.mpr h)]
  · rw [h]
    norm_num [rescaleComplete]

/-- C9, counterexample: a raw completion value of 0.005 loads to 0.5; loading
the export again rescales it a second time to 50, so the explicit
completion-percentage field is not preserved by the round trip. -/
theorem c9_reload_rescales_again :
    loadTable (loadTable [⟨[], [], [], 1 / 200, none, none, 0⟩]) ≠
      loadTable [⟨[], [], [], 1 / 200, none, none, 0⟩] := by
  have h1 : (loadTable (loadTable [⟨[], [], [], 1 / 200, none, none, 0⟩])).map Row.complete
      = [50] := by
    norm_num [loadTable, loadRow, rescaleComplete]
  have h2 : (loadTable [⟨[], [], [], 1 / 200, none, none, 0⟩]).map Row.complete
      = [1 / 2] := by
    norm_num [loadTable, loadRow, rescaleComplete]
  intro h
  rw [h, h2] at h1
  simp only [List.cons.injEq] at h1
  norm_num at h1

/-- C9, amended: reloading an exported loaded table always preserves the row
count, and preserves every explicit field of a loaded row exactly whenever
the loaded completion value is greater than 1 or equal to 0 (text columns are
already normalized — `clean_text` is idempotent — and the other fields pass
through); a loaded completion value in (0, 1] (raw input in (0, 0.01]) is
rescaled by 100 a second time. -/
theorem c9_roundtrip_amended (t : List Row) :
    (loadTable (loadTable t)).length = (loadTable t).length ∧
    ∀ r ∈ loadTable t, (1 < r.complete ∨ r.complete = 0) → loadRow r = r := by
  constructor
  · simp [loadTable]
  · intro r hr hc
    rw [loadTable, List.mem_map] at hr
    obtain ⟨r0, -, rfl⟩ := hr
    obtain ⟨k0, j0, s0, c0, st0, pe0, x0⟩ := r0
    simp only [loadRow] at hc ⊢
    simp only [Row.mk.injEq]
    exact ⟨cleanChars_idem k0, cleanChars_idem j0, cleanChars_idem s0,
      rescaleComplete_fix c0 hc, trivial, trivial, trivial⟩

/-- C9 witness: a one-row table with in-range percentage completion (50) and
an already-clean text field survives the reload unchanged. -/
theorem c9_roundtrip_amended_witness :
    loadRow (loadRow ⟨[72, 73], [], [], 50, none, none, 0⟩) =
      loadRow ⟨[72, 73], [], [], 50, none, none, 0⟩ :=
  (c9_roundtrip_amended [⟨[72, 73], [], [], 50, none, none, 0⟩]).2
    (loadRow ⟨[72, 73], [], [], 50, none, none, 0⟩)
    (by simp [loadTable])
    (Or.inl (by norm_num [loadRow, rescaleComplete]))

/-- C10: evaluation at the failing input.  A raw table whose single row has
an unparseable `START` cell (and no `IS_MILESTONE` column, so the
milestone/`DURATION` branch runs) makes the whole load abort with the pandas
`ValueError`, instead of retaining the row with a missing date as the claim
(and the spec's failure policy) requires. -/
theorem c10_unparseable_date_aborts_load :
    load_data 0 [⟨[], [], [], 0, DateCell.bad, DateCell.val 0, 0, 0⟩] =
      Except.error "ValueError" := rfl

/-- C8 witness: the spec's end-to-end example — planned-end 2024-03-01 (day
19783), status TUNDA (≠ SELESAI), queried as of 2024-03-10 (day 19792): the
row is included and its late-days annotation is 9. -/
theorem c8_late_amended_witness :
    (⟨some 19783, "TUNDA"⟩ : LateRow) ∈ lateFilter [⟨some 19783, "TUNDA"⟩] 19792 ∧
    1 ≤ lateDays 19792 19783 ∧ lateDays 19792 19783 = 9 := by
  have h := c8_late_amended [⟨some 19783, "TUNDA"⟩] 19792 ⟨some 19783, "TUNDA"⟩
  refine ⟨h.1.mpr ⟨List.mem_singleton_self _, 19783, rfl, by norm_num, by decide⟩,
    (h.2 19783 rfl (by norm_num)).2 ⟨19792, by norm_num⟩ ⟨19783, by norm_num⟩, ?_⟩
  unfold lateDays
  rw [show (19792 - 19783 : ℚ) = ((9 : ℤ) : ℚ) by norm_num]
  exact Int.floor_intCast 9

end Inca
